import Mathlib

/-!
Verification of the HDF5-Aerospace-Calculations pipeline: a shallow embedding
of the subsampled loader, modal-solver truncation, block-wise matrix
synthesizer, response reducer and report diagnostics from
`src/python/visualize_results.py` and `src/python/create_test_hdf5.py`,
together with theorems settling the specified behavioural properties.
-/

set_option maxRecDepth 8000

namespace HDF5Aero

/-! ## Python slicing primitives

`strided step c xs` models the tail of the Python slice `xs[::step]` in which
`c` elements must still be skipped before the next one is kept.  The slice
`xs[::step]` itself is `everyN step xs := strided step 0 xs`: it keeps the
elements at indices `0, step, 2*step, ...`. -/

def strided {α : Type*} (step : ℕ) : ℕ → List α → List α
  | _, [] => []
  | 0, x :: rest => x :: strided step (step - 1) rest
  | c + 1, _ :: rest => strided step c rest

/-- `everyN step xs` is the Python slice `xs[::step]` (for `step ≥ 1`). -/
def everyN {α : Type*} (step : ℕ) (xs : List α) : List α :=
  strided step 0 xs

theorem strided_getElem? {α : Type*} (step : ℕ) (h : 1 ≤ step) :
    ∀ (xs : List α) (c k : ℕ), (strided step c xs)[k]? = xs[c + k * step]? := by
  intro xs
  induction xs with
  | nil => intro c k; simp [strided]
  | cons x rest ih =>
    intro c k
    cases c with
    | zero =>
      cases k with
      | zero => simp [strided]
      | succ k =>
        show (x :: strided step (step - 1) rest)[k + 1]? = (x :: rest)[0 + (k + 1) * step]?
        rw [List.getElem?_cons_succ, ih (step - 1) k]
        have hmul : (k + 1) * step = k * step + step := by ring
        have : 0 + (k + 1) * step = (step - 1 + k * step) + 1 := by omega
        rw [this, List.getElem?_cons_succ]
    | succ c =>
      show (strided step c rest)[k]? = (x :: rest)[(c + 1) + k * step]?
      rw [ih c k]
      have : (c + 1) + k * step = (c + k * step) + 1 := by omega
      rw [this, List.getElem?_cons_succ]

theorem strided_length {α : Type*} (step : ℕ) (h : 1 ≤ step) :
    ∀ (xs : List α) (c : ℕ), c ≤ step - 1 →
      (strided step c xs).length = (xs.length + (step - 1) - c) / step := by
  intro xs
  induction xs with
  | nil =>
    intro c hc
    simp only [strided, List.length_nil]
    rw [Nat.div_eq_of_lt (by omega)]
  | cons x rest ih =>
    intro c hc
    cases c with
    | zero =>
      show (x :: strided step (step - 1) rest).length = _
      rw [List.length_cons, ih (step - 1) le_rfl]
      have hnum : rest.length + (step - 1) - (step - 1) = rest.length := by omega
      rw [hnum]
      have hnum2 : (x :: rest).length + (step - 1) - 0 = rest.length + step := by
        simp [List.length_cons]; omega
      rw [hnum2, Nat.add_div_right _ (by omega : 0 < step)]
    | succ c =>
      show (strided step c rest).length = _
      rw [ih c (by omega)]
      have : rest.length + (step - 1) - c = (x :: rest).length + (step - 1) - (c + 1) := by
        simp [List.length_cons]; omega
      rw [this]

theorem everyN_getElem? {α : Type*} (step : ℕ) (h : 1 ≤ step) (xs : List α) (k : ℕ) :
    (everyN step xs)[k]? = xs[k * step]? := by
  have := strided_getElem? step h xs 0 k
  simpa [everyN] using this

theorem everyN_length {α : Type*} (step : ℕ) (h : 1 ≤ step) (xs : List α) :
    (everyN step xs).length = (xs.length + (step - 1)) / step := by
  have := strided_length step h xs 0 (by omega)
  simpa [everyN] using this

/-! ## SubsampledLoader

Embedding of `load_dataset_with_subsampling` (`visualize_results.py`,
lines 57-68).  `n = dataset.shape[0]` is the leading dimension; when
`n > max_size` the step is `n // max_size` and the code returns
`dataset[::step]` for a vector and `dataset[::step, ::step]` for a matrix,
otherwise it returns the dataset unchanged. -/

/-- 1-D branch of `load_dataset_with_subsampling`: `dataset[::step]` when
`n > max_size`, otherwise `dataset[:]`. -/
def load1d {α : Type*} (max_size : ℕ) (xs : List α) : List α :=
  if max_size < xs.length then everyN (xs.length / max_size) xs else xs

/-- 2-D branch of `load_dataset_with_subsampling`: `dataset[::step, ::step]`
when `n > max_size` (`n` = number of rows), otherwise `dataset[:]`. -/
def load2d {α : Type*} (max_size : ℕ) (m : List (List α)) : List (List α) :=
  if max_size < m.length then
    (everyN (m.length / max_size) m).map (everyN (m.length / max_size))
  else m

/-- Entry `(r, c)` of a matrix represented as a list of rows. -/
def matGet2 {α : Type*} (m : List (List α)) (r c : ℕ) : Option α :=
  (m[r]?).bind (fun row => row[c]?)

theorem load2d_getElem {α : Type*} (max_size : ℕ) (m : List (List α))
    (h1 : 1 ≤ max_size) (h3 : max_size < m.length) (r c : ℕ) :
    matGet2 (load2d max_size m) r c
      = matGet2 m (r * (m.length / max_size)) (c * (m.length / max_size)) := by
  have hs : 1 ≤ m.length / max_size := by
    rw [Nat.one_le_div_iff (by omega)]; omega
  unfold load2d matGet2
  rw [if_pos h3, List.getElem?_map, everyN_getElem? _ hs]
  cases hrow : m[r * (m.length / max_size)]? with
  | none => simp
  | some row => simp [everyN_getElem? _ hs]

/-- Claim C1: for a dataset whose leading dimension `n` exceeds
`max_size ≥ 1`, the loader computes `stride = n / max_size ≥ 1` and returns,
for a 1-D dataset, exactly the elements at indices `0, stride, 2*stride, ...`
(`subsample[k] = original[k*stride]` for every `k`), and for a 2-D dataset the
same stride applied independently to both axes
(`subsample[r][c] = original[r*stride][c*stride]`). -/
theorem subsample_stride_correct {α : Type*} (max_size : ℕ) (xs : List α)
    (m : List (List α)) (k r c : ℕ) (h1 : 1 ≤ max_size)
    (h2 : max_size < xs.length) (h3 : max_size < m.length) :
    1 ≤ xs.length / max_size ∧ 1 ≤ m.length / max_size ∧
    (load1d max_size xs)[k]? = xs[k * (xs.length / max_size)]? ∧
    matGet2 (load2d max_size m) r c
      = matGet2 m (r * (m.length / max_size)) (c * (m.length / max_size)) := by
  have hsx : 1 ≤ xs.length / max_size := by
    rw [Nat.one_le_div_iff (by omega)]; omega
  have hsm : 1 ≤ m.length / max_size := by
    rw [Nat.one_le_div_iff (by omega)]; omega
  refine ⟨hsx, hsm, ?_, load2d_getElem max_size m h1 h3 r c⟩
  unfold load1d
  rw [if_pos h2, everyN_getElem? _ hsx]

theorem subsample_stride_correct_witness :
    1 ≤ [10, 20, 30, 40, 50].length / 2 ∧
    1 ≤ [[1, 2, 3], [4, 5, 6], [7, 8, 9]].length / 2 ∧
    (load1d 2 [10, 20, 30, 40, 50])[1]? = [10, 20, 30, 40, 50][1 * ([10, 20, 30, 40, 50].length / 2)]? ∧
    matGet2 (load2d 2 [[1, 2, 3], [4, 5, 6], [7, 8, 9]]) 1 0
      = matGet2 [[1, 2, 3], [4, 5, 6], [7, 8, 9]]
          (1 * ([[1, 2, 3], [4, 5, 6], [7, 8, 9]].length / 2))
          (0 * ([[1, 2, 3], [4, 5, 6], [7, 8, 9]].length / 2)) :=
  subsample_stride_correct 2 [10, 20, 30, 40, 50] [[1, 2, 3], [4, 5, 6], [7, 8, 9]]
    1 1 0 (by decide) (by decide) (by decide)

/-- Claim C2: for a dataset whose leading dimension satisfies
`n ≤ max_size`, the loader returns the full array unchanged. -/
theorem subsample_identity_small {α : Type*} (max_size : ℕ) (xs : List α)
    (m : List (List α)) (h2 : xs.length ≤ max_size) (h3 : m.length ≤ max_size) :
    load1d max_size xs = xs ∧ load2d max_size m = m := by
  constructor
  · unfold load1d; rw [if_neg (by omega)]
  · unfold load2d; rw [if_neg (by omega)]

theorem subsample_identity_small_witness :
    load1d 5 [10, 20, 30] = [10, 20, 30] ∧
    load2d 5 [[1, 2], [3, 4]] = [[1, 2], [3, 4]] :=
  subsample_identity_small 5 [10, 20, 30] [[1, 2], [3, 4]] (by decide) (by decide)

/-- Claim C10: for a 1-D dataset with `n > max_size ≥ 1`, the loader returns
exactly `ceil(n / (n // max_size))` elements, which is always strictly less
than `2 * max_size` but may strictly exceed `max_size`; in particular for
`max_size < n < 2 * max_size` the stride is `1` and all `n` elements are
returned, so `max_size` is not a hard upper bound on the returned size. -/
theorem subsample_size_bound {α : Type*} (max_size : ℕ) (xs : List α)
    (h1 : 1 ≤ max_size) (h2 : max_size < xs.length) :
    (load1d max_size xs).length
      = (xs.length + (xs.length / max_size) - 1) / (xs.length / max_size) ∧
    (load1d max_size xs).length < 2 * max_size ∧
    (xs.length < 2 * max_size →
      xs.length / max_size = 1 ∧ (load1d max_size xs).length = xs.length) := by
  set n := xs.length with hn
  have hs : 1 ≤ n / max_size := by
    rw [Nat.one_le_div_iff (by omega)]; omega
  set s := n / max_size with hsdef
  have hlen : (load1d max_size xs).length = (n + (s - 1)) / s := by
    unfold load1d
    rw [if_pos h2, everyN_length _ hs]
  have hnum : n + (s - 1) = n + s - 1 := by omega
  refine ⟨by rw [hlen, hnum], ?_, ?_⟩
  · -- the returned size is strictly below 2 * max_size
    rw [hlen]
    rw [Nat.div_lt_iff_lt_mul (by omega : 0 < s)]
    have hmod := Nat.div_add_mod n max_size
    have hmodlt : n % max_size < max_size := Nat.mod_lt _ (by omega)
    obtain ⟨a, ha⟩ : ∃ a, max_size = 1 + a := ⟨max_size - 1, by omega⟩
    obtain ⟨b, hb⟩ : ∃ b, s = 1 + b := ⟨s - 1, by omega⟩
    have hprod : max_size * s = 1 + a + b + a * b := by rw [ha, hb]; ring
    have hdistrib : 2 * max_size * s = 2 * (max_size * s) := by ring
    have hms : max_size * (n / max_size) = max_size * s := by rw [← hsdef]
    omega
  · intro hlt
    have hs1 : s = 1 := by
      have : n / max_size = 1 := Nat.div_eq_of_lt_le (by omega) (by omega)
      omega
    constructor
    · omega
    · rw [hlen, hs1]; omega

theorem subsample_size_bound_witness :
    (load1d 2 [10, 20, 30]).length
      = ([10, 20, 30].length + ([10, 20, 30].length / 2) - 1) / ([10, 20, 30].length / 2) ∧
    (load1d 2 [10, 20, 30]).length < 2 * 2 ∧
    ([10, 20, 30].length < 2 * 2 →
      [10, 20, 30].length / 2 = 1 ∧ (load1d 2 [10, 20, 30]).length = [10, 20, 30].length) :=
  subsample_size_bound 2 [10, 20, 30] (by decide) (by decide)

/-! ## ModalSolver truncation

Embedding of the truncation step of `plot_eigenvalue_analysis`
(`visualize_results.py`, lines 170-178): with `n = stiffness.shape[0]`, if
`n > 1000` both matrices are restricted with `idx = slice(0, 500)` to
`stiffness[idx, idx]` and `mass[idx, idx]`; otherwise they are used as is. -/

/-- Leading `k x k` principal submatrix: `m[0:k, 0:k]`. -/
def submat {α : Type*} (k : ℕ) (m : List (List α)) : List (List α) :=
  (m.take k).map (fun row => row.take k)

/-- Truncation policy of `plot_eigenvalue_analysis`: restrict both matrices
to their leading 500 x 500 principal submatrix when (and only when) the
stiffness matrix has more than 1000 rows. -/
def truncateForModal {α : Type*} (stiffness mass : List (List α)) :
    List (List α) × List (List α) :=
  if 1000 < stiffness.length then (submat 500 stiffness, submat 500 mass)
  else (stiffness, mass)

/-- Counterexample to claim C3: at dimension `n = 501 > 500` the solver does
not restrict the matrices at all (the code's threshold is `n > 1000`, not
`n > 500`), so the matrices passed on still have 501 rows, not 500. -/
theorem modal_truncation_at501 :
    truncateForModal (List.replicate 501 (List.replicate 501 (0 : ℕ)))
        (List.replicate 501 (List.replicate 501 (0 : ℕ)))
      = (List.replicate 501 (List.replicate 501 (0 : ℕ)),
         List.replicate 501 (List.replicate 501 (0 : ℕ))) ∧
    (500 : ℕ) < (List.replicate 501 (List.replicate 501 (0 : ℕ))).length ∧
    (truncateForModal (List.replicate 501 (List.replicate 501 (0 : ℕ)))
        (List.replicate 501 (List.replicate 501 (0 : ℕ)))).1.length = 501 := by
  refine ⟨?_, by simp, ?_⟩
  · unfold truncateForModal
    rw [if_neg (by simp)]
  · unfold truncateForModal
    rw [if_neg (by simp)]
    simp

theorem submat_map_length {α : Type*} (m : List (List α)) (n : ℕ)
    (hlen : m.length = n) (hrow : ∀ row ∈ m, row.length = n) (hn : 1000 < n) :
    (submat 500 m).map List.length = List.replicate 500 500 := by
  unfold submat
  rw [List.map_map, List.eq_replicate_iff]
  constructor
  · simp [List.length_take, hlen]; omega
  · intro b hb
    rw [List.mem_map] at hb
    obtain ⟨row, hrowmem, hbe⟩ := hb
    have : row ∈ m := List.take_subset _ _ hrowmem
    have hr := hrow row this
    simp only [Function.comp_apply, List.length_take] at hbe
    omega

/-- Claim C3 (amended): the modal solver restricts both matrices to the
leading 500 x 500 principal submatrix exactly when the loaded dimension `n`
exceeds 1000 (not 500); the restriction is applied identically to both
matrices, so the matrices passed to the eigen-solve have equal shape
(500 rows of 500 entries each in the truncated case, the original common
shape otherwise). -/
theorem modal_truncation_amended {α : Type*} (K M : List (List α)) (n : ℕ)
    (hK : K.length = n) (hM : M.length = n)
    (hKr : ∀ row ∈ K, row.length = n) (hMr : ∀ row ∈ M, row.length = n) :
    (n ≤ 1000 → truncateForModal K M = (K, M)) ∧
    (1000 < n →
      truncateForModal K M = (submat 500 K, submat 500 M) ∧
      (truncateForModal K M).1.map List.length = List.replicate 500 500 ∧
      (truncateForModal K M).2.map List.length = List.replicate 500 500) := by
  constructor
  · intro hle
    unfold truncateForModal
    rw [if_neg (by omega)]
  · intro hgt
    have heq : truncateForModal K M = (submat 500 K, submat 500 M) := by
      unfold truncateForModal
      rw [if_pos (by omega)]
    refine ⟨heq, ?_, ?_⟩
    · rw [heq]
      exact submat_map_length K n hK hKr hgt
    · rw [heq]
      exact submat_map_length M n hM hMr hgt

theorem modal_truncation_amended_witness :
    truncateForModal (List.replicate 1001 (List.replicate 1001 (0 : ℕ)))
        (List.replicate 1001 (List.replicate 1001 (0 : ℕ)))
      = (submat 500 (List.replicate 1001 (List.replicate 1001 (0 : ℕ))),
         submat 500 (List.replicate 1001 (List.replicate 1001 (0 : ℕ)))) ∧
    (truncateForModal (List.replicate 1001 (List.replicate 1001 (0 : ℕ)))
        (List.replicate 1001 (List.replicate 1001 (0 : ℕ)))).1.map List.length
      = List.replicate 500 500 :=
  have h := modal_truncation_amended
    (List.replicate 1001 (List.replicate 1001 (0 : ℕ)))
    (List.replicate 1001 (List.replicate 1001 (0 : ℕ))) 1001
    (by simp) (by simp)
    (fun row hr => by rw [List.eq_of_mem_replicate hr]; simp)
    (fun row hr => by rw [List.eq_of_mem_replicate hr]; simp)
  ⟨(h.2 (by norm_num)).1, (h.2 (by norm_num)).2.1⟩

/-! ## BlockedMatrixSynthesizer: block allocation shapes

Embedding of the allocation pattern of `create_test_hdf5`
(`create_test_hdf5.py`, lines 36-57 and 70-75).  The stiffness loop iterates
`i, j` over `range(0, size, 1000)` and allocates
`np.zeros((end_i - i, end_j - j))` with `end_i = min(i + 1000, size)`; the
mass loop iterates `i` over `range(0, size, 1000)` and allocates
`np.zeros((end_i - i, size))` — a full-width row panel. -/

/-- Python `range(0, stop, step)` for `step ≥ 1`. -/
def pyrange (stop step : ℕ) : List ℕ :=
  (List.range ((stop + step - 1) / step)).map (fun k => k * step)

/-- Shapes `(rows, cols)` of the blocks allocated by the stiffness loop of
`create_test_hdf5`. -/
def stiffBlockShapes (size : ℕ) : List (ℕ × ℕ) :=
  (pyrange size 1000).flatMap (fun i =>
    (pyrange size 1000).map (fun j =>
      (min (i + 1000) size - i, min (j + 1000) size - j)))

/-- Shapes `(rows, cols)` of the blocks allocated by the mass loop of
`create_test_hdf5` (`np.zeros((end_i - i, size))`). -/
def massBlockShapes (size : ℕ) : List (ℕ × ℕ) :=
  (pyrange size 1000).map (fun i => (min (i + 1000) size - i, size))

/-- Counterexample to claim C4: at `size = 2000` the mass loop allocates a
block of shape `1000 x 2000` — 2,000,000 elements, exceeding the claimed
bound of at most `1000 x 1000` elements per allocated block. -/
theorem mass_block_exceeds_bound :
    ((1000, 2000) ∈ massBlockShapes 2000) ∧ 1000 * 1000 < 1000 * 2000 := by
  decide

/-- Claim C4 (amended): the stiffness loop allocates only blocks of at most
1000 x 1000 elements, but the mass loop allocates row panels of at most 1000
rows by the full matrix width `n`, so for `n > 1000` the mass-generation path
exceeds one 1000 x 1000 block. -/
theorem block_allocation_shapes (size : ℕ) (p q : ℕ × ℕ)
    (hp : p ∈ stiffBlockShapes size) (hq : q ∈ massBlockShapes size) :
    p.1 ≤ 1000 ∧ p.2 ≤ 1000 ∧ q.1 ≤ 1000 ∧ q.2 = size := by
  unfold stiffBlockShapes at hp
  rw [List.mem_flatMap] at hp
  obtain ⟨i, _, hp⟩ := hp
  rw [List.mem_map] at hp
  obtain ⟨j, _, hpe⟩ := hp
  unfold massBlockShapes at hq
  rw [List.mem_map] at hq
  obtain ⟨i2, _, hqe⟩ := hq
  subst hpe
  subst hqe
  refine ⟨by simp; omega, by simp; omega, by simp; omega, rfl⟩

theorem block_allocation_shapes_witness :
    (1000, 1000).1 ≤ 1000 ∧ (1000, 1000).2 ≤ 1000 ∧
    (1000, 2000).1 ≤ 1000 ∧ (1000, 2000).2 = 2000 :=
  block_allocation_shapes 2000 (1000, 1000) (1000, 2000) (by decide) (by decide)

/-! ## BlockedMatrixSynthesizer: stiffness value pattern

Embedding of the per-entry value rule of the stiffness loop of
`create_test_hdf5` (`create_test_hdf5.py`, lines 42-57).  The global entry
`(r, c)` lies in block `(i, j)` with `i = 1000 * (r // 1000)` and
`j = 1000 * (c // 1000)`; the block is left zero when `abs(i - j) >= 2000`;
on the diagonal block (`i == j`) only the diagonal (`r == c`) is filled with
`7e10 * (1 + 0.1 * sin(r / 1000))`; on blocks with `abs(i - j) <= 1000` the
entries with `abs(r - c) <= 50` receive `-7e10 * exp(-abs(r-c)/10) * 0.3`.
The transcendental functions `np.sin` and `np.exp` are abstracted as
parameters `sinf` and `expf`. -/

/-- Start offset of the 1000-wide block containing index `r`. -/
def blockStart (r : ℕ) : ℕ := 1000 * (r / 1000)

/-- `abs(a - b)` for Python integers `a b ≥ 0`. -/
def natDist (a b : ℕ) : ℕ := ((a : ℤ) - (b : ℤ)).natAbs

theorem natDist_comm (a b : ℕ) : natDist a b = natDist b a := by
  unfold natDist
  rw [← Int.natAbs_neg, neg_sub]

/-- Value written by the stiffness loop of `create_test_hdf5` at global
position `(r, c)`, with `sinf` and `expf` standing for `np.sin` / `np.exp`. -/
def stiffEntry {F : Type*} [LinearOrderedField F] (sinf expf : F → F) (r c : ℕ) : F :=
  if natDist (blockStart r) (blockStart c) < 2000 then
    if blockStart r = blockStart c then
      if r = c then 70000000000 * (1 + (1 / 10) * sinf ((r : F) / 1000)) else 0
    else if natDist (blockStart r) (blockStart c) ≤ 1000 then
      if natDist r c ≤ 50 then
        -70000000000 * expf (-(natDist r c : F) / 10) * (3 / 10)
      else 0
    else 0
  else 0

/-- Claim C5: the synthesized stiffness pattern is symmetric — the entry
generated at `(r, c)` equals the entry generated at `(c, r)` — and every
diagonal entry is strictly positive (for any model of `np.sin` whose values
stay in `[-1, 1]`). -/
theorem stiffness_symmetric_posdiag {F : Type*} [LinearOrderedField F]
    (sinf expf : F → F) (hsin : ∀ x, -1 ≤ sinf x ∧ sinf x ≤ 1)
    (size r c : ℕ) (hr : r < size) (hc : c < size) :
    stiffEntry sinf expf r c = stiffEntry sinf expf c r ∧
    0 < stiffEntry sinf expf r r := by
  constructor
  · by_cases h3 : r = c
    · subst h3
      rfl
    · unfold stiffEntry
      rw [natDist_comm (blockStart c) (blockStart r), natDist_comm c r]
      simp only [show (blockStart c = blockStart r) ↔ (blockStart r = blockStart c)
          from eq_comm,
        show (c = r) ↔ (r = c) from eq_comm, if_neg h3]
  · have h0 : natDist (blockStart r) (blockStart r) = 0 := by
      unfold natDist
      simp
    unfold stiffEntry
    rw [h0, if_pos (by norm_num), if_pos rfl, if_pos rfl]
    have hs := hsin ((r : F) / 1000)
    nlinarith [hs.1, hs.2]

/-- Constant-zero model of `np.sin` used to instantiate the witness. -/
def zeroFun : ℚ → ℚ := fun _ => 0

/-- Constant-one model of `np.exp` used to instantiate the witness. -/
def oneFun : ℚ → ℚ := fun _ => 1

theorem stiffness_symmetric_posdiag_witness :
    stiffEntry zeroFun oneFun 1 2 = stiffEntry zeroFun oneFun 2 1 ∧
    0 < stiffEntry zeroFun oneFun 1 1 :=
  stiffness_symmetric_posdiag zeroFun oneFun
    (fun x => ⟨by norm_num [zeroFun], by norm_num [zeroFun]⟩)
    3 1 2 (by norm_num) (by norm_num)

/-! ## ResponseReducer

Embedding of the reduction in `plot_response_analysis`
(`visualize_results.py`, lines 226-250): `n_nodes = len(force) // 6`, the
translational components are the slices `displacement[0::6][:n_nodes]`,
`displacement[1::6][:n_nodes]`, `displacement[2::6][:n_nodes]` (with a
zero-filled fallback when the vector is too short for an offset), and the
per-node magnitude is `sqrt(disp_x**2 + disp_y**2 + disp_z**2)`. -/

/-- Pointwise ternary zip, modelling elementwise numpy arithmetic over three
equally-shaped arrays. -/
def zip3With {α β γ δ : Type*} (f : α → β → γ → δ) :
    List α → List β → List γ → List δ
  | [], _, _ => []
  | _ :: _, [], _ => []
  | _ :: _, _ :: _, [] => []
  | x :: xs, y :: ys, z :: zs => f x y z :: zip3With f xs ys zs

theorem zip3With_length {α β γ δ : Type*} (f : α → β → γ → δ) :
    ∀ (as : List α) (bs : List β) (cs : List γ),
      (zip3With f as bs cs).length = min as.length (min bs.length cs.length) := by
  intro as
  induction as with
  | nil => intro bs cs; simp [zip3With]
  | cons a as ih =>
    intro bs cs
    cases bs with
    | nil => simp [zip3With]
    | cons b bs =>
      cases cs with
      | nil => simp [zip3With]
      | cons c cs =>
        simp only [zip3With, List.length_cons, ih]
        omega

theorem zip3With_getElem? {α β γ δ : Type*} (f : α → β → γ → δ) :
    ∀ (as : List α) (bs : List β) (cs : List γ) (k : ℕ) (a : α) (b : β) (c : γ),
      as[k]? = some a → bs[k]? = some b → cs[k]? = some c →
      (zip3With f as bs cs)[k]? = some (f a b c) := by
  intro as
  induction as with
  | nil => intro bs cs k a b c ha; simp at ha
  | cons x xs ih =>
    intro bs cs k a b c ha hb hc
    cases bs with
    | nil => simp at hb
    | cons y ys =>
      cases cs with
      | nil => simp at hc
      | cons z zs =>
        cases k with
        | zero =>
          simp only [List.getElem?_cons_zero, Option.some.injEq] at ha hb hc
          subst ha; subst hb; subst hc
          simp [zip3With]
        | succ k =>
          simp only [List.getElem?_cons_succ] at ha hb hc
          show (zip3With f (x :: xs) (y :: ys) (z :: zs))[k + 1]? = _
          simp only [zip3With, List.getElem?_cons_succ]
          exact ih ys zs k a b c ha hb hc

/-- `n_nodes = len(force) // 6`. -/
def nNodes {α : Type*} (force : List α) : ℕ := force.length / 6

/-- `displacement[0::6][:n]`. -/
def dispX (U : List ℝ) (n : ℕ) : List ℝ := (everyN 6 U).take n

/-- `displacement[1::6][:n]`, falling back to zeros when `len(U) ≤ 1`. -/
def dispY (U : List ℝ) (n : ℕ) : List ℝ :=
  if 1 < U.length then (everyN 6 (U.drop 1)).take n
  else List.replicate (dispX U n).length 0

/-- `displacement[2::6][:n]`, falling back to zeros when `len(U) ≤ 2`. -/
def dispZ (U : List ℝ) (n : ℕ) : List ℝ :=
  if 2 < U.length then (everyN 6 (U.drop 2)).take n
  else List.replicate (dispX U n).length 0

/-- `np.sqrt(disp_x**2 + disp_y**2 + disp_z**2)`: the per-node displacement
magnitude of `plot_response_analysis`. -/
noncomputable def dispMagnitude (U : List ℝ) (n : ℕ) : List ℝ :=
  zip3With (fun x y z => Real.sqrt (x ^ 2 + y ^ 2 + z ^ 2))
    (dispX U n) (dispY U n) (dispZ U n)

/-- Claim C6: for a force/displacement pair (same DOF count), the reducer
uses node count `len(force) // 6` and reports, for every node `k`, the
Euclidean norm of that node's three translational displacement components
`(U[6k], U[6k+1], U[6k+2])`; the magnitude list has exactly `len(force) // 6`
entries. -/
theorem response_magnitudes (Fv U : List ℝ) (k : ℕ)
    (hlen : U.length = Fv.length) (hk : k < nNodes Fv) :
    (dispMagnitude U (nNodes Fv)).length = nNodes Fv ∧
    (dispMagnitude U (nNodes Fv))[k]?
      = some (Real.sqrt ((U.getD (6 * k) 0) ^ 2 + (U.getD (6 * k + 1) 0) ^ 2
          + (U.getD (6 * k + 2) 0) ^ 2)) := by
  have h6 : (k + 1) * 6 ≤ Fv.length := by
    rw [← Nat.le_div_iff_mul_le (by norm_num : 0 < 6)]
    exact hk
  have hUlen : 6 * k + 5 < U.length := by omega
  have hU1 : 1 < U.length := by omega
  have hU2 : 2 < U.length := by omega
  have hn : nNodes Fv ≤ U.length / 6 := by
    unfold nNodes; omega
  have hx : (dispX U (nNodes Fv)).length = nNodes Fv := by
    unfold dispX
    rw [List.length_take, everyN_length 6 (by norm_num)]
    have : nNodes Fv ≤ (U.length + (6 - 1)) / 6 := by
      refine le_trans hn (Nat.div_le_div_right ?_)
      omega
    omega
  have hy : (dispY U (nNodes Fv)).length = nNodes Fv := by
    unfold dispY
    rw [if_pos hU1, List.length_take, everyN_length 6 (by norm_num)]
    have : nNodes Fv ≤ ((U.drop 1).length + (6 - 1)) / 6 := by
      refine le_trans hn (Nat.div_le_div_right ?_)
      rw [List.length_drop]
      omega
    omega
  have hz : (dispZ U (nNodes Fv)).length = nNodes Fv := by
    unfold dispZ
    rw [if_pos hU2, List.length_take, everyN_length 6 (by norm_num)]
    have : nNodes Fv ≤ ((U.drop 2).length + (6 - 1)) / 6 := by
      refine le_trans hn (Nat.div_le_div_right ?_)
      rw [List.length_drop]
      omega
    omega
  constructor
  · rw [dispMagnitude, zip3With_length, hx, hy, hz]
    omega
  · have hgx : (dispX U (nNodes Fv))[k]? = some (U.getD (6 * k) 0) := by
      unfold dispX
      rw [List.getElem?_take_of_lt hk, everyN_getElem? 6 (by norm_num)]
      rw [show k * 6 = 6 * k from by ring]
      rw [List.getElem?_eq_getElem (show 6 * k < U.length from by omega)]
      rw [List.getD_eq_getElem?_getD,
        List.getElem?_eq_getElem (show 6 * k < U.length from by omega), Option.getD_some]
    have hgy : (dispY U (nNodes Fv))[k]? = some (U.getD (6 * k + 1) 0) := by
      unfold dispY
      rw [if_pos hU1, List.getElem?_take_of_lt hk, everyN_getElem? 6 (by norm_num),
        List.getElem?_drop]
      rw [show 1 + k * 6 = 6 * k + 1 from by ring]
      rw [List.getElem?_eq_getElem (show 6 * k + 1 < U.length from by omega)]
      rw [List.getD_eq_getElem?_getD,
        List.getElem?_eq_getElem (show 6 * k + 1 < U.length from by omega), Option.getD_some]
    have hgz : (dispZ U (nNodes Fv))[k]? = some (U.getD (6 * k + 2) 0) := by
      unfold dispZ
      rw [if_pos hU2, List.getElem?_take_of_lt hk, everyN_getElem? 6 (by norm_num),
        List.getElem?_drop]
      rw [show 2 + k * 6 = 6 * k + 2 from by ring]
      rw [List.getElem?_eq_getElem (show 6 * k + 2 < U.length from by omega)]
      rw [List.getD_eq_getElem?_getD,
        List.getElem?_eq_getElem (show 6 * k + 2 < U.length from by omega), Option.getD_some]
    unfold dispMagnitude
    exact zip3With_getElem? _ _ _ _ k _ _ _ hgx hgy hgz

theorem response_magnitudes_witness :
    (dispMagnitude [3, 4, 0, 0, 0, 0, 1, 2, 2, 0, 0, 0]
        (nNodes [1, 1, 1, 1, 1, 1, 1, 1, 1, 1, 1, 1])).length
      = nNodes [(1 : ℝ), 1, 1, 1, 1, 1, 1, 1, 1, 1, 1, 1] ∧
    (dispMagnitude [3, 4, 0, 0, 0, 0, 1, 2, 2, 0, 0, 0]
        (nNodes [(1 : ℝ), 1, 1, 1, 1, 1, 1, 1, 1, 1, 1, 1]))[1]?
      = some (Real.sqrt
          (([(3 : ℝ), 4, 0, 0, 0, 0, 1, 2, 2, 0, 0, 0].getD (6 * 1) 0) ^ 2
            + ([(3 : ℝ), 4, 0, 0, 0, 0, 1, 2, 2, 0, 0, 0].getD (6 * 1 + 1) 0) ^ 2
            + ([(3 : ℝ), 4, 0, 0, 0, 0, 1, 2, 2, 0, 0, 0].getD (6 * 1 + 2) 0) ^ 2)) :=
  response_magnitudes [1, 1, 1, 1, 1, 1, 1, 1, 1, 1, 1, 1]
    [3, 4, 0, 0, 0, 0, 1, 2, 2, 0, 0, 0] 1 rfl (by norm_num [nNodes])

/-! ## generate_report: displacement diagnostics

Embedding of the report computations of `generate_report`
(`visualize_results.py`, lines 319-333): the reported maximum displacement is
`np.max(np.abs(U)) * 1000` millimetres and the warning is printed exactly
when that value is strictly greater than `10`. -/

/-- `np.abs(U)`. -/
def absList (U : List ℚ) : List ℚ := U.map (fun x => |x|)

/-- `np.max(np.abs(U)) * 1000` — the reported maximum displacement in
millimetres (`none` when the vector is empty, where `np.max` would raise). -/
def reportMaxDispMM (U : List ℚ) : Option ℚ :=
  ((absList U).max?).map (fun m => m * 1000)

/-- Whether `generate_report` prints the "exceeds limit" warning:
`max_disp_mm > 10`. -/
def reportExceedsLimit (U : List ℚ) : Option Bool :=
  (reportMaxDispMM U).map (fun v => decide (10 < v))

theorem max?_spec (l : List ℚ) (h : l ≠ []) :
    ∃ m, l.max? = some m ∧ m ∈ l ∧ ∀ x ∈ l, x ≤ m := by
  cases hm : l.max? with
  | none => exact absurd (List.max?_eq_none_iff.mp hm) h
  | some m =>
    have hanti : Std.Antisymm ((· : ℚ) ≤ ·) := ⟨fun hab hba => le_antisymm hab hba⟩
    rw [List.max?_eq_some_iff (fun a => le_refl a) (fun a b => max_choice a b)
      (fun a b c => max_le_iff)] at hm
    exact ⟨m, rfl, hm.1, hm.2⟩

/-- Claim C7: the report's maximum displacement value is
`max(|U|) * 1000` millimetres — it is attained by some `|u|` with `u ∈ U` and
bounds every `|x| * 1000` for `x ∈ U` — and the "exceeds limit" warning is
flagged exactly when that value is strictly greater than 10. -/
theorem report_max_displacement (U : List ℚ) (x : ℚ) (hne : U ≠ []) (hx : x ∈ U) :
    reportMaxDispMM U = some ((absList U).max?.getD 0 * 1000) ∧
    (absList U).max?.getD 0 ∈ absList U ∧
    |x| * 1000 ≤ (absList U).max?.getD 0 * 1000 ∧
    (reportExceedsLimit U = some true ↔ 10 < (absList U).max?.getD 0 * 1000) := by
  have hne2 : absList U ≠ [] := by
    unfold absList
    simpa using hne
  obtain ⟨m, hm, hmem, hub⟩ := max?_spec (absList U) hne2
  have hgd : (absList U).max?.getD 0 = m := by rw [hm]; rfl
  rw [hgd]
  have hxm : |x| ≤ m := hub _ (by unfold absList; exact List.mem_map_of_mem _ hx)
  refine ⟨?_, hmem, ?_, ?_⟩
  · unfold reportMaxDispMM
    rw [hm]
    rfl
  · nlinarith
  · unfold reportExceedsLimit reportMaxDispMM
    rw [hm]
    simp

theorem report_max_displacement_witness :
    reportMaxDispMM [1 / 100, -2 / 100]
      = some ((absList [1 / 100, -2 / 100]).max?.getD 0 * 1000) ∧
    (absList [1 / 100, -2 / 100]).max?.getD 0 ∈ absList [1 / 100, -2 / 100] ∧
    |(1 / 100 : ℚ)| * 1000 ≤ (absList [1 / 100, -2 / 100]).max?.getD 0 * 1000 ∧
    (reportExceedsLimit [1 / 100, -2 / 100] = some true
      ↔ 10 < (absList [1 / 100, -2 / 100]).max?.getD 0 * 1000) :=
  report_max_displacement [1 / 100, -2 / 100] (1 / 100) (by simp) (by simp)

/-! ## generate_report: strain energy

Embedding of lines 323-326 of `visualize_results.py`:
`if 'stiffness' in data: energy = 0.5 * np.dot(U, np.dot(K, U))`.  The outer
`Option` records whether the energy computation is attempted at all (it is
attempted exactly when a stiffness matrix is present); the inner `Option`
records whether `np.dot` succeeds (`none` models the `ValueError` numpy
raises on a shape mismatch). -/

/-- Elementwise product-sum of two equally indexed lists (`np.dot` core). -/
def dotList (a b : List ℚ) : ℚ := (List.zipWith (fun x y => x * y) a b).sum

/-- `np.dot(K, U)` for a matrix and a vector: defined only when every row of
`K` has the length of `U`, as numpy raises a `ValueError` otherwise. -/
def npMatVec (K : List (List ℚ)) (U : List ℚ) : Option (List ℚ) :=
  if K.all (fun row => row.length == U.length) then
    some (K.map (fun row => dotList row U))
  else none

/-- `np.dot(a, b)` for two vectors: defined only when the lengths agree. -/
def npDotVec (a b : List ℚ) : Option ℚ :=
  if a.length == b.length then some (dotList a b) else none

/-- The strain-energy step of `generate_report`: attempted exactly when a
stiffness matrix is in `data`; the inner computation is
`0.5 * np.dot(U, np.dot(K, U))`. -/
def strainEnergy (stiffness : Option (List (List ℚ))) (U : List ℚ) :
    Option (Option ℚ) :=
  match stiffness with
  | none => none
  | some K => some ((npMatVec K U).bind (fun KU =>
      (npDotVec U KU).map (fun s => 1 / 2 * s)))

/-- Counterexample to claim C8: with a 2 x 2 stiffness matrix present and a
displacement vector of length 3, the code attempts the energy computation
(no dimension guard exists) and `np.dot` raises, rather than the energy
simply being omitted: the result is `some none` (attempted, failed), not
`none` (omitted). -/
theorem strain_energy_mismatch_raises :
    strainEnergy (some [[1, 0], [0, 1]]) [1, 1, 1] = some none ∧
    strainEnergy (some [[(1 : ℚ), 0], [0, 1]]) [1, 1, 1] ≠ none := by
  constructor
  · rfl
  · simp [strainEnergy]

/-- `0.5 * U^t K U` written as an explicit double sum over indices — the
specification's formula for the strain energy. -/
def quadForm (K : List (List ℚ)) (U : List ℚ) : ℚ :=
  1 / 2 * ∑ i ∈ Finset.range U.length, ∑ j ∈ Finset.range U.length,
    U.getD i 0 * ((K.getD i []).getD j 0 * U.getD j 0)

theorem dotList_eq_sum (a : List ℚ) :
    ∀ b : List ℚ, dotList a b
      = ∑ i ∈ Finset.range (min a.length b.length), a.getD i 0 * b.getD i 0 := by
  induction a with
  | nil => intro b; simp [dotList]
  | cons x xs ih =>
    intro b
    cases b with
    | nil => simp [dotList]
    | cons y ys =>
      have hstep : dotList (x :: xs) (y :: ys) = x * y + dotList xs ys := by
        unfold dotList
        simp
      rw [hstep, ih ys]
      have hmin : min (x :: xs).length (y :: ys).length = min xs.length ys.length + 1 := by
        simp only [List.length_cons]
        omega
      rw [hmin, Finset.sum_range_succ']
      simp only [List.getD_cons_succ, List.getD_cons_zero]
      ring

/-- Claim C8 (amended): the strain energy is attempted exactly when a
stiffness matrix is present; when the dimensions match it equals
`0.5 * U^t K U`; when no stiffness matrix is present the value is omitted.
(When a matrix of mismatched dimension is present the computation raises —
see the counterexample.) -/
theorem strain_energy_amended (K : List (List ℚ)) (U : List ℚ)
    (h1 : K.length = U.length) (h2 : ∀ row ∈ K, row.length = U.length) :
    strainEnergy (some K) U = some (some (quadForm K U)) ∧
    strainEnergy none U = none := by
  refine ⟨?_, rfl⟩
  have hall : K.all (fun row => row.length == U.length) = true := by
    rw [List.all_eq_true]
    intro row hrow
    simpa using h2 row hrow
  have hKU : npMatVec K U = some (K.map (fun row => dotList row U)) := by
    unfold npMatVec
    rw [if_pos hall]
  have hKUlen : (K.map (fun row => dotList row U)).length = U.length := by
    simpa using h1
  have hdv : npDotVec U (K.map (fun row => dotList row U))
      = some (dotList U (K.map (fun row => dotList row U))) := by
    unfold npDotVec
    rw [if_pos (by simp [hKUlen])]
  simp only [strainEnergy]
  rw [hKU, Option.some_bind, hdv, Option.map_some']
  have hbody : 1 / 2 * dotList U (K.map (fun row => dotList row U)) = quadForm K U := by
    rw [dotList_eq_sum U (K.map (fun row => dotList row U))]
    rw [show min U.length (K.map (fun row => dotList row U)).length = U.length from by
      rw [hKUlen]; omega]
    unfold quadForm
    congr 1
    refine Finset.sum_congr rfl ?_
    intro i hi
    rw [Finset.mem_range] at hi
    have hiK : i < K.length := by omega
    have hKUi : (K.map (fun row => dotList row U)).getD i 0 = dotList (K.getD i []) U := by
      rw [List.getD_eq_getElem?_getD, List.getElem?_map,
        List.getElem?_eq_getElem hiK, List.getD_eq_getElem?_getD,
        List.getElem?_eq_getElem hiK]
      rfl
    rw [hKUi, dotList_eq_sum (K.getD i []) U]
    have hmemK : K.getD i [] ∈ K := by
      rw [List.getD_eq_getElem?_getD, List.getElem?_eq_getElem hiK]
      exact List.getElem_mem hiK
    have hrowlen : (K.getD i []).length = U.length := h2 _ hmemK
    rw [show min (K.getD i []).length U.length = U.length from by rw [hrowlen]; omega]
    rw [Finset.mul_sum]
  rw [hbody]

theorem strain_energy_amended_witness :
    strainEnergy (some [[2, 0], [0, 2]]) [1, 1]
      = some (some (quadForm [[(2 : ℚ), 0], [0, 2]] [1, 1])) ∧
    strainEnergy none [(1 : ℚ), 1] = none :=
  strain_energy_amended [[2, 0], [0, 2]] [1, 1] (by decide) (by decide)

/-! ## ModalSolver: frequency derivation

Embedding of lines 186-187 of `visualize_results.py`:
`frequencies = np.sqrt(np.real(eigenvals)) / (2 * np.pi)`.  Eigenvalues are
modelled as complex numbers; `np.real` keeps the real part unconditionally,
and `np.sqrt` of a negative real produces an invalid value (NaN), modelled
as `none`.  The success path of `plot_eigenvalue_analysis` contains no
branch inspecting the sign (or imaginary part) of any eigenvalue, so the
list of eigenvalues it flags with a warning is empty; the only warning the
function ever prints is the exception handler of lines 219-220. -/

/-- `np.sqrt` on a real: `none` models the NaN returned on negative input. -/
noncomputable def npSqrtReal (x : ℝ) : Option ℝ :=
  if 0 ≤ x then some (Real.sqrt x) else none

/-- Outputs of the frequency derivation of `plot_eigenvalue_analysis`. -/
structure ModalRun where
  frequencies : List (Option ℝ)
  flaggedEigenvalues : List ℂ

/-- The frequency computation `np.sqrt(np.real(eigenvals)) / (2 * np.pi)`;
no eigenvalue is ever flagged with a warning by the code. -/
noncomputable def modalAnalysisRun (eigenvals : List ℂ) : ModalRun where
  frequencies := eigenvals.map (fun l => (npSqrtReal l.re).map (fun s => s / (2 * Real.pi)))
  flaggedEigenvalues := []

/-- Counterexample to claim C9: on the negative eigenvalue `-1` the solver
reports no warning at all — the frequency silently becomes invalid (NaN)
while the flagged-eigenvalue list stays empty. -/
theorem modal_no_warning_on_negative :
    ((-1 : ℂ)).re < 0 ∧
    (modalAnalysisRun [(-1 : ℂ)]).flaggedEigenvalues = [] ∧
    (modalAnalysisRun [(-1 : ℂ)]).frequencies = [none] := by
  refine ⟨by norm_num, rfl, ?_⟩
  simp [modalAnalysisRun, npSqrtReal]

/-- Claim C9 (amended): each natural frequency is computed as
`sqrt(real(lambda)) / (2*pi)` — the imaginary part is discarded
unconditionally; a negative real part yields an invalid (NaN) frequency —
and the solver never flags an eigenvalue with a warning. -/
theorem modal_frequencies_amended (ev : List ℂ) (k : ℕ) (l : ℂ)
    (h : ev[k]? = some l) :
    (0 ≤ l.re → (modalAnalysisRun ev).frequencies[k]?
        = some (some (Real.sqrt l.re / (2 * Real.pi)))) ∧
    (l.re < 0 → (modalAnalysisRun ev).frequencies[k]? = some none) ∧
    (modalAnalysisRun ev).flaggedEigenvalues = [] := by
  refine ⟨?_, ?_, rfl⟩
  · intro h0
    simp [modalAnalysisRun, List.getElem?_map, h, npSqrtReal, if_pos h0]
  · intro h0
    simp [modalAnalysisRun, List.getElem?_map, h, npSqrtReal, if_neg (not_le.mpr h0)]

theorem modal_frequencies_amended_witness :
    (modalAnalysisRun [(4 : ℂ)]).frequencies[0]?
      = some (some (Real.sqrt ((4 : ℂ)).re / (2 * Real.pi))) :=
  (modal_frequencies_amended [(4 : ℂ)] 0 4 rfl).1 (by norm_num)

end HDF5Aero
